import Mathlib

/-!
Shallow embedding of the scoring engine of the Tofico Syrup DSS backend
(`src/main.py`): the SAW (Simple Additive Weighting) endpoint
`calculate_saw` (lines 224-276) and the WP (Weighted Product) endpoint
`calculate_wp` (lines 278-319), together with proofs of the specified
properties of normalization, aggregation, rounding and ranking.

Modelling conventions:
* Python floats are modelled as `ℚ`; the arithmetic the engine performs
  (`+`, `*`, `/`, comparisons, `round(x, 4)`) is exact on the rationals.
* `round(x, 4)` uses round-half-to-even, Python's rounding mode.
* The dataset snapshot read from SQLite is modelled as in-memory lists:
  a `Location` carries the row of `location_criteria` values keyed by
  criterion id (an insertion-ordered association list, one entry per key,
  mirroring the table's primary key `(location_id, criteria_id)`).
* Code that can raise (`math.pow` on a negative base with a non-integer
  exponent, `normalized_matrix[loc['id']]` on a missing key) is modelled
  in `Option`: `none` is an escaped exception.
* `math.pow` on its valid domain is an abstract parameter
  `pw : ℚ → ℚ → ℚ`; structural theorems hold for every `pw`, and concrete
  computations instantiate it at `intPow`, which agrees with `math.pow`
  exactly when the exponent is an integer (all concrete inputs used below
  have integer weights).
-/

namespace Tofico

/-- A row of the `criteria` table: id, display name, weight and type
(`"benefit"` or `"cost"`; the engine itself never validates the string). -/
structure Criterion where
  id : String
  name : String
  weight : ℚ
  type : String
deriving DecidableEq

/-- A row of the `locations` table together with its `location_criteria`
values (criterion id ↦ stored raw value). The descriptive columns
`address`, `latitude`, `longitude` play no part in the scoring math and
are omitted. -/
structure Location where
  id : Nat
  name : String
  values : List (String × ℚ)
deriving DecidableEq

/-- Python dict assignment `d[k] = v` on an insertion-ordered association
list: replace in place if the key is present, else append. -/
def dictInsert [BEq α] (k : α) (v : β) : List (α × β) → List (α × β)
  | [] => [(k, v)]
  | (k', v') :: rest => if k' == k then (k, v) :: rest else (k', v') :: dictInsert k v rest

/-- Embeds `value = value['value'] if value else 0` (lines 254-255 and
299-300): the stored raw value of criterion `cid` at location `l`,
defaulting to `0` when no row exists. -/
def getValue (l : Location) (cid : String) : ℚ :=
  (l.values.lookup cid).getD 0

/-- Embeds the query `SELECT location_id, value FROM location_criteria
WHERE criteria_id = ?` (lines 241-243): the list of stored values of one
criterion, one entry per location that has a stored row for it. -/
def storedValues (locs : List Location) (cid : String) : List ℚ :=
  locs.filterMap (fun l => l.values.lookup cid)

/-- Python's built-in `max` on a list. The engine only applies it to a
non-empty list (guarded by `if not values: continue`); the `[]` case is
dead code. -/
def pymax : List ℚ → ℚ
  | [] => 0
  | x :: xs => xs.foldl max x

/-- Python's built-in `min` on a list; same remark as `pymax`. -/
def pymin : List ℚ → ℚ
  | [] => 0
  | x :: xs => xs.foldl min x

/-- Round to the nearest integer, halves to the even neighbour: the
rounding mode of Python's `round`. -/
def roundHalfEven (x : ℚ) : ℤ :=
  if x - ⌊x⌋ < 1/2 then ⌊x⌋
  else if 1/2 < x - ⌊x⌋ then ⌊x⌋ + 1
  else if 2 ∣ ⌊x⌋ then ⌊x⌋ else ⌊x⌋ + 1

/-- Embeds `round(x, 4)` (lines 271 and 314). -/
def round4 (x : ℚ) : ℚ :=
  (roundHalfEven (x * 10000) : ℚ) / 10000

/-- The two normalization formulas of lines 260-263. Note the branch
condition: anything whose `type` is not the literal string `"benefit"`
takes the cost branch. -/
def normFormula (ctype : String) (maxV minV v : ℚ) : ℚ :=
  if ctype = "benefit" then (if 0 < maxV then v / maxV else 0)
  else (if 0 < minV ∧ 0 < v then minV / v else 0)

/-- The normalized matrix, keyed by location id, each row keyed by
criterion id. -/
abbrev NormMatrix := List (Nat × List (String × ℚ))

/-- One iteration of the outer criterion loop of lines 240-263: skip the
criterion if it has no stored values (`if not values: continue`),
otherwise compute `max_value`/`min_value` over the stored values and
write the normalized entry of every location into the matrix. -/
def sawStep (locs : List Location) (m : NormMatrix) (c : Criterion) : NormMatrix :=
  let values := storedValues locs c.id
  if values = [] then m
  else
    locs.foldl (fun m' l =>
      dictInsert l.id
        (dictInsert c.id
          (normFormula c.type (pymax values) (pymin values) (getValue l c.id))
          ((m'.lookup l.id).getD []))
        m') m

/-- The full normalized matrix of `calculate_saw` (lines 239-263). -/
def sawMatrix (locs : List Location) (crits : List Criterion) : NormMatrix :=
  crits.foldl (sawStep locs) []

/-- One entry of the SAW response (lines 269-273). -/
structure SawResult where
  location : String
  score : ℚ
  details : List (String × ℚ)
deriving DecidableEq

/-- Embeds the generator sum of lines 267-268 (Python `sum` is a left
fold from `0`). -/
def sawScore (crits : List Criterion) (row : List (String × ℚ)) : ℚ :=
  crits.foldl (fun acc c => acc + c.weight * ((row.lookup c.id).getD 0)) 0

/-- Outcome of a Python `for` loop that appends one value per element and
may raise: `none` as soon as any element raises. -/
def mapOption (f : α → Option β) : List α → Option (List β)
  | [] => some []
  | a :: as =>
    match f a, mapOption f as with
    | some b, some bs => some (b :: bs)
    | _, _ => none

/-- Embeds the results loop of lines 265-273. The subscript
`normalized_matrix[loc['id']]` raises `KeyError` when the location id is
absent from the matrix (which happens when no criterion has any stored
value); the raise is modelled by `none`. -/
def sawResults (locs : List Location) (crits : List Criterion) : Option (List SawResult) :=
  let m := sawMatrix locs crits
  mapOption (fun l => (m.lookup l.id).map (fun row =>
    { location := l.name
      score := round4 (sawScore crits row)
      details := row })) locs

/-- The comparator of `sorted(results, key=lambda x: x['score'],
reverse=True)` (line 276). Python's `sorted` is a stable sort, and for a
total preorder on keys the stable descending ordering is unique, so
`List.mergeSort` with this comparator computes exactly the list `sorted`
returns. -/
def sawLE (a b : SawResult) : Bool :=
  decide (b.score ≤ a.score)

/-- Embeds the endpoint `calculate_saw` (lines 224-276): empty guard,
matrix construction, weighted scores rounded to 4 digits, stable
descending sort. -/
def calculate_saw (locs : List Location) (crits : List Criterion) : Option (List SawResult) :=
  if locs = [] ∨ crits = [] then some []
  else (sawResults locs crits).map (fun rs => rs.mergeSort sawLE)

/-- Embeds line 305: negate the weight only for the literal type string
`"cost"`; every other type string (including invalid ones) keeps the
positive weight. -/
def signedWeight (c : Criterion) : ℚ :=
  if c.type = "cost" then -c.weight else c.weight

/-- Domain model of Python's `math.pow`: it raises `ValueError` (here
`none`) on a negative base with a non-integer exponent and on a zero base
with a negative exponent; on the valid domain its value is supplied by
the abstract parameter `pw`. -/
def mathPow (pw : ℚ → ℚ → ℚ) (b e : ℚ) : Option ℚ :=
  if b < 0 ∧ e.den ≠ 1 then none
  else if b = 0 ∧ e < 0 then none
  else some (pw b e)

/-- Canonical instantiation of `pw` used for concrete computation: the
integer power, which is the exact value of `math.pow b e` whenever `e` is
an integer (`e.den = 1`). All concrete inputs below use integer weights. -/
def intPow (b e : ℚ) : ℚ :=
  b ^ e.num

/-- One iteration of the inner criterion loop of lines 296-306: skip the
criterion when its value is `0` (`if value == 0: continue`), otherwise
multiply the accumulator by `math.pow(value, weight)`; a raised exception
(`none`) aborts the rest of the loop. -/
def wpStep (pw : ℚ → ℚ → ℚ) (l : Location) (acc : Option ℚ) (c : Criterion) : Option ℚ :=
  match acc with
  | none => none
  | some s =>
    let v := getValue l c.id
    if v = 0 then some s
    else
      match mathPow pw v (signedWeight c) with
      | none => none
      | some p => some (s * p)

/-- Embeds the per-location S-value loop of lines 295-306: accumulator
initialized to `1`, then one `wpStep` per criterion in order. -/
def wpS (pw : ℚ → ℚ → ℚ) (crits : List Criterion) (l : Location) : Option ℚ :=
  crits.foldl (wpStep pw l) (some 1)

/-- One entry of the WP response (lines 312-316). -/
structure WpResult where
  location : String
  score : ℚ
  s : ℚ
deriving DecidableEq

/-- Embeds the `s_values` list of lines 293-308 (name and S-value per
location, in input order). -/
def wpSValues (pw : ℚ → ℚ → ℚ) (locs : List Location) (crits : List Criterion) :
    Option (List (String × ℚ)) :=
  mapOption (fun l => (wpS pw crits l).map (fun s => (l.name, s))) locs

/-- Embeds `total_s = sum(item['s'] for item in s_values)` (line 310). -/
def wpTotal (sv : List (String × ℚ)) : ℚ :=
  (sv.map Prod.snd).foldl (· + ·) 0

/-- Embeds the result-building comprehension of lines 312-316. -/
def wpResultList (sv : List (String × ℚ)) : List WpResult :=
  sv.map (fun it =>
    { location := it.1
      score := if 0 < wpTotal sv then round4 (it.2 / wpTotal sv) else 0
      s := it.2 })

/-- The comparator of line 319; same remark as `sawLE`. -/
def wpLE (a b : WpResult) : Bool :=
  decide (b.score ≤ a.score)

/-- Embeds the endpoint `calculate_wp` (lines 278-319). -/
def calculate_wp (pw : ℚ → ℚ → ℚ) (locs : List Location) (crits : List Criterion) :
    Option (List WpResult) :=
  if locs = [] ∨ crits = [] then some []
  else (wpSValues pw locs crits).map (fun sv => (wpResultList sv).mergeSort wpLE)

/-- Closed form of the normalized value the SAW matrix holds for a
location and criterion: the line 260-263 formula applied to the bounds
the code computes over the stored values of the criterion. -/
def nValue (locs : List Location) (c : Criterion) (l : Location) : ℚ :=
  normFormula c.type (pymax (storedValues locs c.id)) (pymin (storedValues locs c.id))
    (getValue l c.id)

/-- Closed form of the matrix row of a location: one entry per criterion
that has at least one stored value, in criterion order. -/
def rowSpec (locs : List Location) (crits : List Criterion) (l : Location) :
    List (String × ℚ) :=
  (crits.filter (fun c => decide (storedValues locs c.id ≠ []))).map
    (fun c => (c.id, nValue locs c l))

/-- Modelled from the wording of claim C1: `value(l,c)` over the full
location set, a missing value contributing `0`. -/
def fullValues (locs : List Location) (cid : String) : List ℚ :=
  locs.map (fun l => getValue l cid)

/-- Modelled from the wording of claim C1: the normalization formula with
its bounds taken over the full location set (missing values as `0`)
instead of over the stored values only. -/
def nValueClaim (locs : List Location) (c : Criterion) (l : Location) : ℚ :=
  normFormula c.type (pymax (fullValues locs c.id)) (pymin (fullValues locs c.id))
    (getValue l c.id)

/-- Modelled from the wording of claim C8: a WP signed weight that would
apply the cost treatment (negated exponent) to every non-`"benefit"`
type. -/
def signedWeightClaim (c : Criterion) : ℚ :=
  if c.type = "benefit" then c.weight else -c.weight

/-! ### Association-list lemmas -/

theorem lookup_dictInsert_self [BEq α] [LawfulBEq α] (k : α) (v : β) (d : List (α × β)) :
    (dictInsert k v d).lookup k = some v := by
  induction d with
  | nil => simp [dictInsert, List.lookup]
  | cons p rest ih =>
    obtain ⟨k', v'⟩ := p
    by_cases h : k' = k
    · subst h
      simp [dictInsert, List.lookup]
    · have hb1 : (k' == k) = false := beq_eq_false_iff_ne.mpr h
      have hb2 : (k == k') = false := beq_eq_false_iff_ne.mpr (Ne.symm h)
      simp [dictInsert, List.lookup, hb1, hb2, ih]

theorem lookup_dictInsert_ne [BEq α] [LawfulBEq α] (k k' : α) (v : β) (d : List (α × β))
    (h : k' ≠ k) : (dictInsert k v d).lookup k' = d.lookup k' := by
  have hb : (k' == k) = false := beq_eq_false_iff_ne.mpr h
  induction d with
  | nil => simp [dictInsert, List.lookup, hb]
  | cons p rest ih =>
    obtain ⟨k₀, v₀⟩ := p
    by_cases h0 : k₀ = k
    · subst h0
      simp [dictInsert, List.lookup, hb]
    · have hb0 : (k₀ == k) = false := beq_eq_false_iff_ne.mpr h0
      by_cases h1 : k' = k₀
      · subst h1
        simp [dictInsert, List.lookup, hb0]
      · have hb1 : (k' == k₀) = false := beq_eq_false_iff_ne.mpr h1
        simp [dictInsert, List.lookup, hb0, hb1, ih]

theorem dictInsert_of_lookup_none [BEq α] [LawfulBEq α] (k : α) (v : β) (d : List (α × β))
    (h : d.lookup k = none) : dictInsert k v d = d ++ [(k, v)] := by
  induction d with
  | nil => simp [dictInsert]
  | cons p rest ih =>
    obtain ⟨k₀, v₀⟩ := p
    by_cases h1 : k = k₀
    · subst h1
      simp [List.lookup] at h
    · have hb : (k == k₀) = false := beq_eq_false_iff_ne.mpr h1
      have hb' : (k₀ == k) = false := beq_eq_false_iff_ne.mpr (Ne.symm h1)
      simp only [List.lookup, hb] at h
      simp [dictInsert, hb', ih h]

theorem lookup_eq_none_of_not_mem_keys [BEq α] [LawfulBEq α] (k : α) (d : List (α × β))
    (h : k ∉ d.map Prod.fst) : d.lookup k = none := by
  induction d with
  | nil => simp [List.lookup]
  | cons p rest ih =>
    obtain ⟨k₀, v₀⟩ := p
    simp only [List.map_cons, List.mem_cons, not_or] at h
    have hb : (k == k₀) = false := beq_eq_false_iff_ne.mpr h.1
    simp [List.lookup, hb, ih h.2]

theorem lookup_append_of_none [BEq α] [LawfulBEq α] (k : α) (d₁ d₂ : List (α × β))
    (h : d₁.lookup k = none) : (d₁ ++ d₂).lookup k = d₂.lookup k := by
  induction d₁ with
  | nil => simp
  | cons p rest ih =>
    obtain ⟨k₀, v₀⟩ := p
    by_cases h1 : k = k₀
    · subst h1
      simp [List.lookup] at h
    · have hb : (k == k₀) = false := beq_eq_false_iff_ne.mpr h1
      simp only [List.lookup, hb] at h
      simp [List.lookup, hb, ih h]

/-! ### `pymax` / `pymin` are the maximum / minimum of a non-empty list -/

theorem le_foldl_max (a : ℚ) (xs : List ℚ) : a ≤ xs.foldl max a := by
  induction xs generalizing a with
  | nil => simp
  | cons x xs ih => exact le_trans (le_max_left a x) (ih (max a x))

theorem mem_le_foldl_max (a x : ℚ) (xs : List ℚ) (h : x ∈ xs) : x ≤ xs.foldl max a := by
  induction xs generalizing a with
  | nil => cases h
  | cons y ys ih =>
    rcases List.mem_cons.mp h with rfl | hmem
    · exact le_trans (le_max_right a x) (le_foldl_max _ _)
    · exact ih _ hmem

theorem foldl_max_mem (a : ℚ) (xs : List ℚ) : xs.foldl max a ∈ a :: xs := by
  induction xs generalizing a with
  | nil => simp
  | cons x xs ih =>
    have := ih (max a x)
    rcases List.mem_cons.mp this with h | h
    · rcases max_choice a x with h1 | h1 <;> rw [List.foldl_cons] <;> rw [h, h1] <;> simp
    · simp [List.foldl_cons, List.mem_cons.mpr (Or.inr h)]

theorem foldl_min_le (a : ℚ) (xs : List ℚ) : xs.foldl min a ≤ a := by
  induction xs generalizing a with
  | nil => simp
  | cons x xs ih => exact le_trans (ih (min a x)) (min_le_left a x)

theorem foldl_min_le_mem (a x : ℚ) (xs : List ℚ) (h : x ∈ xs) : xs.foldl min a ≤ x := by
  induction xs generalizing a with
  | nil => cases h
  | cons y ys ih =>
    rcases List.mem_cons.mp h with rfl | hmem
    · exact le_trans (foldl_min_le (min a x) ys) (min_le_right a x)
    · exact ih _ hmem

theorem foldl_min_mem (a : ℚ) (xs : List ℚ) : xs.foldl min a ∈ a :: xs := by
  induction xs generalizing a with
  | nil => simp
  | cons x xs ih =>
    have := ih (min a x)
    rcases List.mem_cons.mp this with h | h
    · rcases min_choice a x with h1 | h1 <;> rw [List.foldl_cons] <;> rw [h, h1] <;> simp
    · simp [List.foldl_cons, List.mem_cons.mpr (Or.inr h)]

theorem pymax_mem (xs : List ℚ) (h : xs ≠ []) : pymax xs ∈ xs := by
  cases xs with
  | nil => exact absurd rfl h
  | cons x xs => exact foldl_max_mem x xs

theorem le_pymax (xs : List ℚ) (x : ℚ) (h : x ∈ xs) : x ≤ pymax xs := by
  cases xs with
  | nil => cases h
  | cons y ys =>
    rcases List.mem_cons.mp h with rfl | hmem
    · exact le_foldl_max x ys
    · exact mem_le_foldl_max y x ys hmem

theorem pymin_mem (xs : List ℚ) (h : xs ≠ []) : pymin xs ∈ xs := by
  cases xs with
  | nil => exact absurd rfl h
  | cons x xs => exact foldl_min_mem x xs

theorem pymin_le (xs : List ℚ) (x : ℚ) (h : x ∈ xs) : pymin xs ≤ x := by
  cases xs with
  | nil => cases h
  | cons y ys =>
    rcases List.mem_cons.mp h with rfl | hmem
    · exact foldl_min_le x ys
    · exact foldl_min_le_mem y x ys hmem

/-! ### Rounding lemmas -/

theorem roundHalfEven_close (x : ℚ) : |(roundHalfEven x : ℚ) - x| ≤ 1/2 := by
  have h1 : (⌊x⌋ : ℚ) ≤ x := Int.floor_le x
  have h2 : x < ⌊x⌋ + 1 := Int.lt_floor_add_one x
  unfold roundHalfEven
  split_ifs with c1 c2 c3 <;> rw [abs_le] <;> push_cast <;> constructor <;> linarith

theorem round4_close (x : ℚ) : |round4 x - x| ≤ 1/20000 := by
  have h := roundHalfEven_close (x * 10000)
  have hrw : round4 x - x = ((roundHalfEven (x * 10000) : ℚ) - x * 10000) / 10000 := by
    unfold round4; ring
  rw [hrw, abs_div, abs_of_pos (by norm_num : (0:ℚ) < 10000)]
  rw [div_le_iff₀ (by norm_num : (0:ℚ) < 10000)]
  linarith

theorem roundHalfEven_eq_low (x : ℚ) (n : ℤ) (h1 : (n:ℚ) ≤ x) (h2 : x - n < 1/2) :
    roundHalfEven x = n := by
  have hf : ⌊x⌋ = n := by
    rw [Int.floor_eq_iff]
    constructor
    · exact h1
    · linarith
  unfold roundHalfEven
  rw [hf, if_pos (by linarith)]

theorem roundHalfEven_eq_high (x : ℚ) (n : ℤ) (h1 : (n:ℚ) ≤ x) (h2 : 1/2 < x - n)
    (h3 : x < n + 1) : roundHalfEven x = n + 1 := by
  have hf : ⌊x⌋ = n := by
    rw [Int.floor_eq_iff]
    constructor
    · exact h1
    · linarith
  unfold roundHalfEven
  rw [hf, if_neg (by linarith), if_pos (by linarith)]

theorem round4_eval_low (x : ℚ) (n : ℤ) (h1 : (n:ℚ) ≤ x * 10000) (h2 : x * 10000 - n < 1/2) :
    round4 x = (n:ℚ) / 10000 := by
  unfold round4
  rw [roundHalfEven_eq_low (x * 10000) n h1 h2]

theorem round4_eval_high (x : ℚ) (n : ℤ) (h1 : (n:ℚ) ≤ x * 10000) (h2 : 1/2 < x * 10000 - n)
    (h3 : x * 10000 < n + 1) : round4 x = ((n:ℚ) + 1) / 10000 := by
  unfold round4
  rw [roundHalfEven_eq_high (x * 10000) n h1 h2 h3]
  push_cast
  ring

theorem round4_one : round4 1 = 1 := by
  rw [round4_eval_low 1 10000 (by norm_num) (by norm_num)]
  norm_num

theorem round4_half : round4 (1/2) = 1/2 := by
  rw [round4_eval_low (1/2) 5000 (by norm_num) (by norm_num)]
  norm_num

theorem round4_sixth : round4 (1/6) = 1667/10000 := by
  rw [round4_eval_high (1/6) 1666 (by norm_num) (by norm_num) (by norm_num)]
  norm_num

theorem round4_third : round4 (1/3) = 3333/10000 := by
  rw [round4_eval_low (1/3) 3333 (by norm_num) (by norm_num)]
  norm_num

theorem round4_two_thirds : round4 (2/3) = 6667/10000 := by
  rw [round4_eval_high (2/3) 6666 (by norm_num) (by norm_num) (by norm_num)]
  norm_num

/-! ### `mapOption` and fold lemmas -/

theorem mapOption_eq_map {f : α → Option β} {g : α → β} :
    ∀ {as : List α}, (∀ a ∈ as, f a = some (g a)) → mapOption f as = some (as.map g)
  | [], _ => rfl
  | a :: as, h => by
    have ha := h a (List.mem_cons_self a as)
    have hrest := mapOption_eq_map (fun x hx => h x (List.mem_cons_of_mem a hx))
    simp [mapOption, ha, hrest]

theorem mapOption_isSome {f : α → Option β} :
    ∀ {as : List α} {bs : List β}, mapOption f as = some bs → ∀ a ∈ as, ∃ b, f a = some b := by
  intro as
  induction as with
  | nil => intro bs _ a ha; cases ha
  | cons x xs ih =>
    intro bs h a ha
    simp only [mapOption] at h
    rcases hx : f x with _ | b
    · rw [hx] at h; cases h
    · rcases hxs : mapOption f xs with _ | bs'
      · rw [hx, hxs] at h; cases h
      · rcases List.mem_cons.mp ha with rfl | hmem
        · exact ⟨b, hx⟩
        · exact ih hxs a hmem

theorem mapOption_length {f : α → Option β} :
    ∀ {as : List α} {bs : List β}, mapOption f as = some bs → bs.length = as.length := by
  intro as
  induction as with
  | nil => intro bs h; cases h; rfl
  | cons x xs ih =>
    intro bs h
    simp only [mapOption] at h
    rcases hx : f x with _ | b
    · rw [hx] at h; cases h
    · rcases hxs : mapOption f xs with _ | bs'
      · rw [hx, hxs] at h; cases h
      · rw [hx, hxs] at h
        cases h
        simp [ih hxs]

theorem foldl_accum_add (f : α → ℚ) (l : List α) (a : ℚ) :
    l.foldl (fun acc x => acc + f x) a = a + (l.map f).sum := by
  induction l generalizing a with
  | nil => simp
  | cons x xs ih =>
    simp only [List.foldl_cons, List.map_cons, List.sum_cons, ih]
    ring

theorem foldl_add_eq_sum (xs : List ℚ) (a : ℚ) : xs.foldl (· + ·) a = a + xs.sum := by
  induction xs generalizing a with
  | nil => simp
  | cons x xs ih =>
    simp only [List.foldl_cons, List.sum_cons, ih]
    ring

theorem sawScore_eq_sum (crits : List Criterion) (row : List (String × ℚ)) :
    sawScore crits row = (crits.map (fun c => c.weight * ((row.lookup c.id).getD 0))).sum := by
  unfold sawScore
  rw [foldl_accum_add]
  simp

theorem sum_map_round4_close (xs : List ℚ) :
    |(xs.map round4).sum - xs.sum| ≤ (xs.length : ℚ) * (1/20000) := by
  induction xs with
  | nil => simp
  | cons x xs ih =>
    have hx := round4_close x
    simp only [List.map_cons, List.sum_cons, List.length_cons]
    have hrw : round4 x + (xs.map round4).sum - (x + xs.sum)
        = (round4 x - x) + ((xs.map round4).sum - xs.sum) := by ring
    rw [hrw]
    calc |(round4 x - x) + ((xs.map round4).sum - xs.sum)|
        ≤ |round4 x - x| + |(xs.map round4).sum - xs.sum| := abs_add _ _
      _ ≤ 1/20000 + (xs.length : ℚ) * (1/20000) := by linarith
      _ = ((xs.length : ℚ) + 1) * (1/20000) := by ring
      _ = (((xs.length : ℕ) + 1 : ℕ) : ℚ) * (1/20000) := by push_cast; ring

theorem sum_map_div (xs : List ℚ) (a : ℚ) : (xs.map (· / a)).sum = xs.sum / a := by
  induction xs with
  | nil => simp
  | cons x xs ih => simp [ih, add_div]

/-! ### Characterization of the SAW normalized matrix

The imperative construction (nested loops writing into a dict of dicts)
is related to the closed forms `rowSpec` / `nValue`. -/

/-- The effect of one matrix write pass on the row of a single location,
as an operation on `Option` rows (`none` = the location id is absent). -/
def rowStep (locs : List Location) (l : Location)
    (r : Option (List (String × ℚ))) (c : Criterion) : Option (List (String × ℚ)) :=
  if storedValues locs c.id = [] then r
  else some (dictInsert c.id (nValue locs c l) (r.getD []))

theorem lookup_updFold_not_mem (g : Location → List (String × ℚ) → List (String × ℚ))
    (locs : List Location) (m : NormMatrix) (i : Nat) (hi : i ∉ locs.map Location.id) :
    ((locs.foldl (fun m' l => dictInsert l.id (g l ((m'.lookup l.id).getD [])) m') m).lookup i)
      = m.lookup i := by
  induction locs generalizing m with
  | nil => rfl
  | cons x xs ih =>
    simp only [List.map_cons, List.mem_cons, not_or] at hi
    rw [List.foldl_cons, ih _ hi.2, lookup_dictInsert_ne _ _ _ _ hi.1]

theorem lookup_updFold_mem (g : Location → List (String × ℚ) → List (String × ℚ))
    (locs : List Location) (m : NormMatrix) (l : Location) (hl : l ∈ locs)
    (hnod : (locs.map Location.id).Nodup) :
    ((locs.foldl (fun m' l' => dictInsert l'.id (g l' ((m'.lookup l'.id).getD [])) m') m).lookup l.id)
      = some (g l ((m.lookup l.id).getD [])) := by
  induction locs generalizing m with
  | nil => cases hl
  | cons x xs ih =>
    simp only [List.map_cons, List.nodup_cons] at hnod
    rw [List.foldl_cons]
    rcases List.mem_cons.mp hl with rfl | hmem
    · rw [lookup_updFold_not_mem g xs _ l.id hnod.1, lookup_dictInsert_self]
    · have hne : l.id ≠ x.id := by
        intro he
        exact hnod.1 (he ▸ List.mem_map_of_mem Location.id hmem)
      rw [ih _ hmem hnod.2, lookup_dictInsert_ne _ _ _ _ hne]

theorem sawStep_lookup (locs : List Location) (c : Criterion) (m : NormMatrix) (l : Location)
    (hl : l ∈ locs) (hnod : (locs.map Location.id).Nodup) :
    (sawStep locs m c).lookup l.id = rowStep locs l (m.lookup l.id) c := by
  by_cases hst : storedValues locs c.id = []
  · simp [sawStep, rowStep, hst]
  · simp only [sawStep, rowStep, hst, if_neg, if_false]
    exact lookup_updFold_mem
      (fun l' row => dictInsert c.id
        (normFormula c.type (pymax (storedValues locs c.id)) (pymin (storedValues locs c.id))
          (getValue l' c.id)) row) locs m l hl hnod

theorem sawMatrixAux_lookup (locs : List Location) (l : Location) (hl : l ∈ locs)
    (hnod : (locs.map Location.id).Nodup) (crits : List Criterion) (m : NormMatrix) :
    ((crits.foldl (sawStep locs) m).lookup l.id)
      = crits.foldl (rowStep locs l) (m.lookup l.id) := by
  induction crits generalizing m with
  | nil => rfl
  | cons c cs ih =>
    rw [List.foldl_cons, List.foldl_cons, ih (sawStep locs m c),
      sawStep_lookup locs c m l hl hnod]

theorem lookup_singleton_ne [BEq α] [LawfulBEq α] (k k' : α) (v : β) (h : k' ≠ k) :
    ([(k, v)] : List (α × β)).lookup k' = none := by
  have hb : (k' == k) = false := beq_eq_false_iff_ne.mpr h
  simp [List.lookup, hb]

theorem rowSpec_nil (locs : List Location) (l : Location) : rowSpec locs [] l = [] := rfl

theorem rowSpec_cons_empty (locs : List Location) (c : Criterion) (cs : List Criterion)
    (l : Location) (hst : storedValues locs c.id = []) :
    rowSpec locs (c :: cs) l = rowSpec locs cs l := by
  simp [rowSpec, hst]

theorem rowSpec_cons_stored (locs : List Location) (c : Criterion) (cs : List Criterion)
    (l : Location) (hst : storedValues locs c.id ≠ []) :
    rowSpec locs (c :: cs) l = (c.id, nValue locs c l) :: rowSpec locs cs l := by
  simp [rowSpec, hst]

theorem rowFold_some (locs : List Location) (l : Location) (crits : List Criterion)
    (row0 : List (String × ℚ)) (hnodc : (crits.map Criterion.id).Nodup)
    (hfresh : ∀ c ∈ crits, row0.lookup c.id = none) :
    crits.foldl (rowStep locs l) (some row0) = some (row0 ++ rowSpec locs crits l) := by
  induction crits generalizing row0 with
  | nil => simp [rowSpec_nil]
  | cons c cs ih =>
    simp only [List.map_cons, List.nodup_cons] at hnodc
    by_cases hst : storedValues locs c.id = []
    · rw [List.foldl_cons]
      simp only [rowStep, hst, if_pos, if_true]
      rw [ih row0 hnodc.2 (fun c' hc' => hfresh c' (List.mem_cons_of_mem c hc')),
        rowSpec_cons_empty locs c cs l hst]
    · rw [List.foldl_cons]
      simp only [rowStep, hst, if_neg, if_false, Option.getD_some]
      rw [dictInsert_of_lookup_none c.id _ row0 (hfresh c (List.mem_cons_self c cs))]
      have hfresh' : ∀ c' ∈ cs, (row0 ++ [(c.id, nValue locs c l)]).lookup c'.id = none := by
        intro c' hc'
        rw [lookup_append_of_none _ _ _ (hfresh c' (List.mem_cons_of_mem c hc'))]
        have hne : c'.id ≠ c.id := by
          intro he
          exact hnodc.1 (he ▸ List.mem_map_of_mem Criterion.id hc')
        exact lookup_singleton_ne c.id c'.id _ hne
      rw [ih _ hnodc.2 hfresh', rowSpec_cons_stored locs c cs l hst]
      simp

theorem rowFold_none_all (locs : List Location) (l : Location) (crits : List Criterion)
    (hall : ∀ c ∈ crits, storedValues locs c.id = []) :
    crits.foldl (rowStep locs l) none = none := by
  induction crits with
  | nil => rfl
  | cons c cs ih =>
    rw [List.foldl_cons]
    simp only [rowStep, hall c (List.mem_cons_self c cs), if_pos, if_true]
    exact ih (fun c' hc' => hall c' (List.mem_cons_of_mem c hc'))

theorem rowFold_none_spec (locs : List Location) (l : Location) (crits : List Criterion)
    (hnodc : (crits.map Criterion.id).Nodup)
    (hex : ¬ ∀ c ∈ crits, storedValues locs c.id = []) :
    crits.foldl (rowStep locs l) none = some (rowSpec locs crits l) := by
  induction crits with
  | nil => exact absurd (by simp) hex
  | cons c cs ih =>
    simp only [List.map_cons, List.nodup_cons] at hnodc
    by_cases hst : storedValues locs c.id = []
    · have hex' : ¬ ∀ c' ∈ cs, storedValues locs c'.id = [] := by
        intro hall
        exact hex (by
          intro x hx
          rcases List.mem_cons.mp hx with rfl | hx'
          · exact hst
          · exact hall x hx')
      rw [List.foldl_cons]
      simp only [rowStep, hst, if_pos, if_true]
      rw [ih hnodc.2 hex', rowSpec_cons_empty locs c cs l hst]
    · rw [List.foldl_cons]
      simp only [rowStep, hst, if_neg, if_false]
      have h0 : dictInsert c.id (nValue locs c l) ((none : Option (List (String × ℚ))).getD [])
          = [(c.id, nValue locs c l)] := rfl
      rw [h0]
      have hfresh : ∀ c' ∈ cs, ([(c.id, nValue locs c l)] : List (String × ℚ)).lookup c'.id = none := by
        intro c' hc'
        have hne : c'.id ≠ c.id := by
          intro he
          exact hnodc.1 (he ▸ List.mem_map_of_mem Criterion.id hc')
        exact lookup_singleton_ne c.id c'.id _ hne
      rw [rowFold_some locs l cs _ hnodc.2 hfresh, rowSpec_cons_stored locs c cs l hst]
      simp

theorem sawMatrix_lookup (locs : List Location) (crits : List Criterion) (l : Location)
    (hl : l ∈ locs) (hnodl : (locs.map Location.id).Nodup)
    (hnodc : (crits.map Criterion.id).Nodup) :
    (sawMatrix locs crits).lookup l.id =
      if ∀ c ∈ crits, storedValues locs c.id = [] then none
      else some (rowSpec locs crits l) := by
  unfold sawMatrix
  rw [sawMatrixAux_lookup locs l hl hnodl crits []]
  split_ifs with hall
  · exact rowFold_none_all locs l crits hall
  · exact rowFold_none_spec locs l crits hnodc hall

theorem rowSpec_keys (locs : List Location) (crits : List Criterion) (l : Location) (k : String)
    (hk : k ∈ (rowSpec locs crits l).map Prod.fst) : k ∈ crits.map Criterion.id := by
  simp only [rowSpec, List.map_map, List.mem_map] at hk
  obtain ⟨c, hc, hck⟩ := hk
  exact hck ▸ List.mem_map_of_mem Criterion.id (List.mem_of_mem_filter hc)

theorem rowSpec_lookup (locs : List Location) (crits : List Criterion) (l : Location)
    (c : Criterion) (hnodc : (crits.map Criterion.id).Nodup) (hc : c ∈ crits) :
    (rowSpec locs crits l).lookup c.id =
      if storedValues locs c.id = [] then none else some (nValue locs c l) := by
  induction crits with
  | nil => cases hc
  | cons c₀ cs ih =>
    simp only [List.map_cons, List.nodup_cons] at hnodc
    rcases List.mem_cons.mp hc with rfl | hmem
    · by_cases hst : storedValues locs c.id = []
      · rw [rowSpec_cons_empty locs c cs l hst, if_pos hst]
        refine lookup_eq_none_of_not_mem_keys c.id _ (fun hk => hnodc.1 ?_)
        exact rowSpec_keys locs cs l c.id hk
      · rw [rowSpec_cons_stored locs c cs l hst, if_neg hst]
        simp [List.lookup]
    · have hne : c.id ≠ c₀.id := by
        intro he
        exact hnodc.1 (he ▸ List.mem_map_of_mem Criterion.id hmem)
      have hb : (c.id == c₀.id) = false := beq_eq_false_iff_ne.mpr hne
      by_cases hst₀ : storedValues locs c₀.id = []
      · rw [rowSpec_cons_empty locs c₀ cs l hst₀]
        exact ih hnodc.2 hmem
      · rw [rowSpec_cons_stored locs c₀ cs l hst₀]
        simp only [List.lookup, hb]
        exact ih hnodc.2 hmem

theorem getValue_eq_zero_of_stored_empty (locs : List Location) (cid : String) (l : Location)
    (hl : l ∈ locs) (h : storedValues locs cid = []) : getValue l cid = 0 := by
  have := List.filterMap_eq_nil_iff.mp h l hl
  simp [getValue, this]

theorem nValue_of_stored_empty (locs : List Location) (c : Criterion) (l : Location)
    (hl : l ∈ locs) (h : storedValues locs c.id = []) : nValue locs c l = 0 := by
  unfold nValue normFormula
  rw [h, getValue_eq_zero_of_stored_empty locs c.id l hl h]
  simp [pymax, pymin]

/-- The central bridge: the entry the scoring loop reads from the matrix
(with the Python `.get(criterion_id, 0)` default) is the closed-form
normalized value `nValue`. -/
theorem sawEntry_eq_nValue (locs : List Location) (crits : List Criterion) (l : Location)
    (c : Criterion) (hl : l ∈ locs) (hc : c ∈ crits)
    (hnodl : (locs.map Location.id).Nodup) (hnodc : (crits.map Criterion.id).Nodup) :
    ((((sawMatrix locs crits).lookup l.id).getD []).lookup c.id).getD 0 = nValue locs c l := by
  rw [sawMatrix_lookup locs crits l hl hnodl hnodc]
  split_ifs with hall
  · rw [nValue_of_stored_empty locs c l hl (hall c hc)]
    simp [List.lookup]
  · rw [Option.getD_some, rowSpec_lookup locs crits l c hnodc hc]
    by_cases hst : storedValues locs c.id = []
    · rw [if_pos hst, nValue_of_stored_empty locs c l hl hst]
      rfl
    · rw [if_neg hst]
      rfl

/-! ### WP structural lemmas -/

theorem mathPow_eq_some (pw : ℚ → ℚ → ℚ) (b e p : ℚ) (h : mathPow pw b e = some p) :
    p = pw b e := by
  unfold mathPow at h
  split_ifs at h
  exact (Option.some_inj.mp h).symm

theorem foldl_wpStep_none (pw : ℚ → ℚ → ℚ) (l : Location) (crits : List Criterion) :
    crits.foldl (wpStep pw l) none = none := by
  induction crits with
  | nil => rfl
  | cons c cs ih => exact ih

theorem foldl_wpStep_some (pw : ℚ → ℚ → ℚ) (l : Location) (crits : List Criterion) :
    ∀ (a s : ℚ), crits.foldl (wpStep pw l) (some a) = some s →
    s = a * ((crits.filter (fun c => decide (getValue l c.id ≠ 0))).map
      (fun c => pw (getValue l c.id) (signedWeight c))).prod := by
  induction crits with
  | nil =>
    intro a s h
    cases h
    simp
  | cons c cs ih =>
    intro a s h
    rw [List.foldl_cons] at h
    by_cases hv : getValue l c.id = 0
    · have hstep : wpStep pw l (some a) c = some a := by simp [wpStep, hv]
      rw [hstep] at h
      have hrec := ih a s h
      simpa [List.filter_cons, hv] using hrec
    · rcases hmp : mathPow pw (getValue l c.id) (signedWeight c) with _ | p
      · have hstep : wpStep pw l (some a) c = none := by simp [wpStep, hv, hmp]
        rw [hstep, foldl_wpStep_none] at h
        cases h
      · have hstep : wpStep pw l (some a) c = some (a * p) := by simp [wpStep, hv, hmp]
        rw [hstep] at h
        have hrec := ih (a * p) s h
        have hp := mathPow_eq_some pw _ _ p hmp
        subst hp
        rw [hrec]
        have hcond : (decide (getValue l c.id ≠ 0)) = true := by simp [hv]
        simp only [List.filter_cons, hcond, if_true, List.map_cons, List.prod_cons]
        ring

theorem foldl_wpStep_all_zero (pw : ℚ → ℚ → ℚ) (l : Location) (crits : List Criterion)
    (a : ℚ) (h : ∀ c ∈ crits, getValue l c.id = 0) :
    crits.foldl (wpStep pw l) (some a) = some a := by
  induction crits with
  | nil => rfl
  | cons c cs ih =>
    rw [List.foldl_cons]
    have hstep : wpStep pw l (some a) c = some a := by
      simp [wpStep, h c (List.mem_cons_self c cs)]
    rw [hstep]
    exact ih (fun c' hc' => h c' (List.mem_cons_of_mem c hc'))

/-! ### Ranking lemmas: descending stable sort by a rational key -/

theorem descBy_trans (key : α → ℚ) (a b c : α)
    (hab : decide (key b ≤ key a) = true) (hbc : decide (key c ≤ key b) = true) :
    decide (key c ≤ key a) = true := by
  simp only [decide_eq_true_eq] at hab hbc ⊢
  exact le_trans hbc hab

theorem descBy_total (key : α → ℚ) (a b : α) :
    (decide (key b ≤ key a) || decide (key a ≤ key b)) = true := by
  rcases le_total (key b) (key a) with h | h <;> simp [h]

theorem mergeSort_descBy_sorted (key : α → ℚ) (l : List α) :
    (l.mergeSort (fun a b => decide (key b ≤ key a))).Pairwise (fun a b => key b ≤ key a) := by
  have h := @List.sorted_mergeSort _ (fun a b => decide (key b ≤ key a))
    (descBy_trans key) (descBy_total key) l
  exact h.imp (fun hab => by simpa using hab)

theorem pairwise_descBy_of_all_eq (key : α → ℚ) (q : ℚ) (c : List α)
    (h : ∀ a ∈ c, key a = q) :
    c.Pairwise (fun a b => decide (key b ≤ key a) = true) := by
  induction c with
  | nil => exact List.Pairwise.nil
  | cons x xs ih =>
    refine List.Pairwise.cons ?_ (ih fun a ha => h a (List.mem_cons_of_mem x ha))
    intro b hb
    have h1 := h x (List.mem_cons_self x xs)
    have h2 := h b (List.mem_cons_of_mem x hb)
    simp [h1, h2]

/-- Stability of the ranking: filtering the sorted output at any single
score value gives exactly the same-score records in their original
relative order. -/
theorem mergeSort_filter_key (key : α → ℚ) (l : List α) (q : ℚ) :
    (l.mergeSort (fun a b => decide (key b ≤ key a))).filter (fun a => decide (key a = q))
      = l.filter (fun a => decide (key a = q)) := by
  have hsub : List.Sublist (l.filter (fun a => decide (key a = q))) l := List.filter_sublist l
  have hpw : (l.filter (fun a => decide (key a = q))).Pairwise
      (fun a b => decide (key b ≤ key a) = true) := by
    refine pairwise_descBy_of_all_eq key q _ (fun a ha => ?_)
    have := (List.mem_filter.mp ha).2
    simpa using this
  have hms : List.Sublist (l.filter (fun a => decide (key a = q)))
      (l.mergeSort (fun a b => decide (key b ≤ key a))) :=
    List.sublist_mergeSort (descBy_trans key) (descBy_total key) hpw hsub
  have heq : (l.filter (fun a => decide (key a = q))).filter (fun a => decide (key a = q))
      = l.filter (fun a => decide (key a = q)) := by
    refine List.filter_eq_self.mpr ?_
    intro a ha
    exact (List.mem_filter.mp ha).2
  have hsub2 : List.Sublist (l.filter (fun a => decide (key a = q)))
      ((l.mergeSort (fun a b => decide (key b ≤ key a))).filter (fun a => decide (key a = q))) := by
    have hf := hms.filter (fun a => decide (key a = q))
    rwa [heq] at hf
  have hperm : List.Perm
      ((l.mergeSort (fun a b => decide (key b ≤ key a))).filter (fun a => decide (key a = q)))
      (l.filter (fun a => decide (key a = q))) :=
    (List.mergeSort_perm l _).filter _
  exact (List.Sublist.eq_of_length hsub2 hperm.length_eq.symm).symm

/-! ### Concrete datasets used by counterexamples and witnesses -/

/-- The spec scenario: location A with raw value 10. -/
def locA10 : Location := ⟨1, "A", [("c", 10)]⟩

/-- The spec scenario: location B with raw value 5. -/
def locB5 : Location := ⟨2, "B", [("c", 5)]⟩

/-- A benefit criterion of weight 1. -/
def critBen : Criterion := ⟨"c", "crit", 1, "benefit"⟩

/-- A cost criterion of weight 1. -/
def critCost : Criterion := ⟨"c", "crit", 1, "cost"⟩

/-- A location with stored value 5 for criterion c. -/
def locStored5 : Location := ⟨1, "A", [("c", 5)]⟩

/-- A location with no stored value at all. -/
def locMissing : Location := ⟨2, "B", []⟩

/-- A location with a negative stored value. -/
def locNeg5 : Location := ⟨1, "A", [("c", -5)]⟩

/-- A location with stored value 10, id 2. -/
def locB10 : Location := ⟨2, "B", [("c", 10)]⟩

/-- A benefit criterion with the non-integer weight 0.5. -/
def critHalfW : Criterion := ⟨"c", "crit", 1/2, "benefit"⟩

/-- A criterion whose type string is neither benefit nor cost. -/
def critOther : Criterion := ⟨"c", "crit", 1, "distance"⟩

/-- A location with stored value 1/2, so that its WP raw product is
below 1. -/
def locHalfVal : Location := ⟨1, "A", [("c", 1/2)]⟩

/-- Six locations with identical value 1, used to accumulate rounding
error in the WP score sum. -/
def sixLocs : List Location :=
  [⟨1, "P1", [("c", 1)]⟩, ⟨2, "P2", [("c", 1)]⟩, ⟨3, "P3", [("c", 1)]⟩,
   ⟨4, "P4", [("c", 1)]⟩, ⟨5, "P5", [("c", 1)]⟩, ⟨6, "P6", [("c", 1)]⟩]

/-! ### Concrete evaluation helpers -/

theorem getValue_locA10 : getValue locA10 "c" = 10 := by
  simp [getValue, locA10]

theorem storedValues_scenario : storedValues [locA10, locB5] "c" = [10, 5] := by
  simp [storedValues, locA10, locB5]

theorem wpS_scenario_A : wpS intPow [critBen] locA10 = some 10 := by
  simp [wpS, wpStep, getValue, mathPow, signedWeight, intPow, critBen, locA10]

theorem pymax_scenario : pymax (storedValues [locA10, locB5] "c") = 10 := by
  rw [storedValues_scenario]
  norm_num [pymax]

theorem pymax_scenario_cid : pymax (storedValues [locA10, locB5] critBen.id) = 10 :=
  pymax_scenario

theorem nodup_scenario_locs : (([locA10, locB5].map Location.id)).Nodup := by
  simp [locA10, locB5]

theorem nodup_single_crit : (([critBen].map Criterion.id)).Nodup := by
  simp

/-! ### Claim C1 (corrected) -/

/-- C1, counterexample. The claim states that the SAW bounds `max_c` and
`min_c` are taken over `value(l,c)` for the full location set, missing
values contributing `0`. On the dataset [A with stored 5, B with no
value] and a cost criterion, the bound the code uses is
`min(storedValues) = 5` while the claimed bound is `min(5, 0) = 0`, and
the difference is observable: the code normalizes A to `5/5 = 1`, while
the claimed bound `0` would force the entry `0` (the cost branch requires
`min_c > 0`). -/
theorem saw_bounds_full_set_refuted :
    pymin (storedValues [locStored5, locMissing] "c") = 5 ∧
    pymin (fullValues [locStored5, locMissing] "c") = 0 ∧
    pymin (storedValues [locStored5, locMissing] "c")
      ≠ pymin (fullValues [locStored5, locMissing] "c") ∧
    ((((sawMatrix [locStored5, locMissing] [critCost]).lookup locStored5.id).getD
      []).lookup "c").getD 0 = 1 ∧
    nValueClaim [locStored5, locMissing] critCost locStored5 = 0 := by
  refine ⟨?_, ?_, ?_, ?_, ?_⟩
  · simp [storedValues, pymin, locStored5, locMissing]
  · simp [fullValues, pymin, getValue, locStored5, locMissing]
  · simp [storedValues, fullValues, pymin, getValue, locStored5, locMissing]
  · simp [sawMatrix, sawStep, storedValues, getValue, dictInsert, normFormula, pymax, pymin,
      locStored5, locMissing, critCost]
  · simp [nValueClaim, fullValues, normFormula, getValue, pymin, pymax, locStored5, locMissing,
      critCost]

/-- C1, amended: for each criterion with at least one stored value, the
bounds `max_value` / `min_value` the code computes (`pymax` / `pymin` of
`storedValues`, see `sawStep`) are the maximum and minimum of the stored
values over the locations that have a stored value for the criterion;
locations with a missing value are excluded from the bound computation
rather than contributing `0`. -/
theorem saw_bounds_over_stored (locs : List Location) (cid : String)
    (h : storedValues locs cid ≠ []) :
    (pymax (storedValues locs cid) ∈ storedValues locs cid ∧
      ∀ v ∈ storedValues locs cid, v ≤ pymax (storedValues locs cid)) ∧
    (pymin (storedValues locs cid) ∈ storedValues locs cid ∧
      ∀ v ∈ storedValues locs cid, pymin (storedValues locs cid) ≤ v) :=
  ⟨⟨pymax_mem _ h, fun v hv => le_pymax _ v hv⟩,
   ⟨pymin_mem _ h, fun v hv => pymin_le _ v hv⟩⟩

/-- C1, witness for the amended theorem at the two-location scenario. -/
theorem saw_bounds_over_stored_witness :
    pymax (storedValues [locA10, locB5] "c") ∈ storedValues [locA10, locB5] "c" ∧
    pymin (storedValues [locA10, locB5] "c") ∈ storedValues [locA10, locB5] "c" := by
  have h := saw_bounds_over_stored [locA10, locB5] "c"
    (by rw [storedValues_scenario]; simp)
  exact ⟨h.1.1, h.2.1⟩

/-! ### Claim C2 (confirmed) -/

/-- C2: for every location and criterion (with the dataset's primary-key
uniqueness of ids), the normalized value the scoring reads from the
matrix equals the claimed piecewise formula: benefit ⇒ `value / max_c`
when `max_c > 0` else `0`; otherwise ⇒ `min_c / value` when `min_c > 0`
and `value > 0` else `0`, with `value` the stored value defaulting to `0`
and `max_c`/`min_c` the code's bounds over the stored values. -/
theorem saw_normalization_formula (locs : List Location) (crits : List Criterion)
    (l : Location) (c : Criterion) (hl : l ∈ locs) (hc : c ∈ crits)
    (hnodl : (locs.map Location.id).Nodup) (hnodc : (crits.map Criterion.id).Nodup) :
    ((((sawMatrix locs crits).lookup l.id).getD []).lookup c.id).getD 0 =
      if c.type = "benefit" then
        (if 0 < pymax (storedValues locs c.id)
         then getValue l c.id / pymax (storedValues locs c.id) else 0)
      else
        (if 0 < pymin (storedValues locs c.id) ∧ 0 < getValue l c.id
         then pymin (storedValues locs c.id) / getValue l c.id else 0) := by
  rw [sawEntry_eq_nValue locs crits l c hl hc hnodl hnodc]
  rfl

/-- C2, witness at the spec scenario: A's entry for the benefit criterion
evaluates to `10 / 10 = 1`. -/
theorem saw_normalization_formula_witness :
    ((((sawMatrix [locA10, locB5] [critBen]).lookup locA10.id).getD
      []).lookup critBen.id).getD 0 = 1 := by
  have h := saw_normalization_formula [locA10, locB5] [critBen] locA10 critBen
    (by simp) (by simp) nodup_scenario_locs nodup_single_crit
  rw [h, pymax_scenario_cid]
  simp [critBen, getValue, locA10]

/-! ### Claim C9 (corrected) -/

/-- C9, counterexample. The claim states `0 ≤ n(l,c) ≤ 1` for every
benefit criterion. With a negative stored value (legal input per the
data model) the normalized entry is negative: A stores `-5`, B stores
`10`, so A's entry is `-5/10 = -1/2 < 0`. -/
theorem saw_benefit_negative_entry :
    ((((sawMatrix [locNeg5, locB10] [critBen]).lookup locNeg5.id).getD []).lookup "c").getD 0
      = -(1/2) ∧
    ¬ (0 ≤ (-(1/2) : ℚ)) := by
  constructor
  · simp [sawMatrix, sawStep, storedValues, getValue, dictInsert, normFormula, pymax, pymin,
      locNeg5, locB10, critBen]
    norm_num
  · norm_num

/-- C9, amended: for a benefit criterion, the normalized entry is always
at most `1`; it is at least `0` whenever the location's raw value is
nonnegative (a negative stored value yields a negative entry); and a
location whose stored value equals `max_c` has entry `1` provided
`max_c > 0` (when `max_c ≤ 0` the entry is `0` instead). -/
theorem saw_benefit_bounds (locs : List Location) (crits : List Criterion)
    (l : Location) (c : Criterion) (hl : l ∈ locs) (hc : c ∈ crits)
    (hnodl : (locs.map Location.id).Nodup) (hnodc : (crits.map Criterion.id).Nodup)
    (hb : c.type = "benefit") :
    ((((sawMatrix locs crits).lookup l.id).getD []).lookup c.id).getD 0 ≤ 1 ∧
    (0 ≤ getValue l c.id →
      0 ≤ ((((sawMatrix locs crits).lookup l.id).getD []).lookup c.id).getD 0) ∧
    (∀ v : ℚ, l.values.lookup c.id = some v → v = pymax (storedValues locs c.id) →
      0 < pymax (storedValues locs c.id) →
      ((((sawMatrix locs crits).lookup l.id).getD []).lookup c.id).getD 0 = 1) := by
  rw [sawEntry_eq_nValue locs crits l c hl hc hnodl hnodc]
  unfold nValue normFormula
  rw [if_pos hb]
  by_cases hmax : 0 < pymax (storedValues locs c.id)
  · rw [if_pos hmax]
    refine ⟨?_, ?_, ?_⟩
    · rcases hlv : l.values.lookup c.id with _ | v
      · have hv0 : getValue l c.id = 0 := by simp [getValue, hlv]
        rw [hv0, zero_div]
        norm_num
      · have hvv : getValue l c.id = v := by simp [getValue, hlv]
        have hmem : v ∈ storedValues locs c.id := by
          refine List.mem_filterMap.mpr ⟨l, hl, hlv⟩
        have hle : v ≤ pymax (storedValues locs c.id) := le_pymax _ v hmem
        rw [hvv]
        exact (div_le_one hmax).mpr hle
    · intro hv
      exact div_nonneg hv (le_of_lt hmax)
    · intro v hlv hveq _
      have hvv : getValue l c.id = v := by simp [getValue, hlv]
      rw [hvv, hveq]
      exact div_self (ne_of_gt hmax)
  · rw [if_neg hmax]
    refine ⟨by norm_num, fun _ => le_refl 0, ?_⟩
    intro v _ _ hpos
    exact absurd hpos hmax

/-- C9, witness for the amended theorem: A stores `10 = max_c`, and its
entry is `1`. -/
theorem saw_benefit_bounds_witness :
    ((((sawMatrix [locA10, locB5] [critBen]).lookup locA10.id).getD
      []).lookup critBen.id).getD 0 ≤ 1 ∧
    ((((sawMatrix [locA10, locB5] [critBen]).lookup locA10.id).getD
      []).lookup critBen.id).getD 0 = 1 := by
  have h := saw_benefit_bounds [locA10, locB5] [critBen] locA10 critBen
    (by simp) (by simp) nodup_scenario_locs nodup_single_crit rfl
  refine ⟨h.1, ?_⟩
  refine h.2.2 10 rfl ?_ ?_
  · rw [pymax_scenario_cid]
  · rw [pymax_scenario_cid]
    norm_num

/-! ### Claim C3 (confirmed) -/

/-- C3: whenever the WP S-value loop finishes without an exception, the
raw score is exactly the product, over the criteria in order whose value
is nonzero, of `pow value signedWeight` — that is, the accumulator starts
at `1` and every zero-valued criterion (stored zero or missing) is
skipped, contributing nothing. Holds for every model `pw` of `math.pow`
on its valid domain. -/
theorem wp_product_formula (pw : ℚ → ℚ → ℚ) (crits : List Criterion) (l : Location) (s : ℚ)
    (h : wpS pw crits l = some s) :
    s = ((crits.filter (fun c => decide (getValue l c.id ≠ 0))).map
      (fun c => pw (getValue l c.id) (signedWeight c))).prod := by
  have hs := foldl_wpStep_some pw l crits 1 s h
  simpa using hs

/-- C3, witness at the scenario: the product for A is `10`. -/
theorem wp_product_formula_witness :
    (10:ℚ) = (([critBen].filter (fun c => decide (getValue locA10 c.id ≠ 0))).map
      (fun c => intPow (getValue locA10 c.id) (signedWeight c))).prod :=
  wp_product_formula intPow [critBen] locA10 10 wpS_scenario_A

/-! ### Claim C5 (code bug) -/

/-- C5 fails on the code: nothing guards `math.pow`. On a location with
the legal raw value `-5` and a benefit criterion of weight `0.5`,
`math.pow(-5.0, 0.5)` raises `ValueError` and the exception escapes
`calculate_wp` (modelled: the computation is `none`). Moreover
`calculate_saw` raises `KeyError` at `normalized_matrix[loc['id']]`
whenever no criterion has any stored value. -/
theorem scoring_unguarded_raises :
    calculate_wp intPow [locNeg5] [critHalfW] = none ∧
    calculate_saw [locMissing] [critBen] = none := by
  constructor
  · have hne : (-5:ℚ) ≠ 0 := by norm_num
    have hlt : (-5:ℚ) < 0 := by norm_num
    have hden : ((1/2:ℚ)).den ≠ 1 := by norm_num
    have h : wpS intPow [critHalfW] locNeg5 = none := by
      simp [wpS, wpStep, getValue, mathPow, signedWeight, intPow, critHalfW, locNeg5,
        hne, hlt, hden]
    simp [calculate_wp, wpSValues, mapOption, h]
  · simp [calculate_saw, sawResults, sawMatrix, sawStep, storedValues, mapOption,
      locMissing, critBen]

/-! ### Claim C8 (corrected) -/

/-- C8, counterexample. For the type string `"distance"` (neither
`"benefit"` nor `"cost"`), the claim says WP negates the weight exponent
(cost treatment, `S = 5^{-1} = 1/5`); the code negates only for the
literal `"cost"`, so it applies the benefit treatment and computes
`S = 5^{+1} = 5`. -/
theorem wp_nonbenefit_type_not_cost :
    signedWeight critOther = 1 ∧
    signedWeightClaim critOther = -1 ∧
    wpS intPow [critOther] locStored5 = some 5 ∧
    intPow 5 (signedWeightClaim critOther) = 1/5 ∧
    ((5:ℚ) ≠ 1/5) := by
  refine ⟨?_, ?_, ?_, ?_, by norm_num⟩
  · simp [signedWeight, critOther]
  · simp [signedWeightClaim, critOther]
  · simp [wpS, wpStep, getValue, mathPow, signedWeight, intPow, critOther, locStored5]
  · simp [intPow, signedWeightClaim, critOther]

/-- C8, amended: SAW applies the cost normalization formula for every
type other than the literal `"benefit"`, with no validation error; WP
negates the weight exponent only for the literal `"cost"`, so a type
that is neither string receives the cost treatment in SAW but the
benefit treatment (positive exponent) in WP, again silently. -/
theorem criterion_type_dispatch :
    (∀ (locs : List Location) (c : Criterion) (l : Location), c.type ≠ "benefit" →
      nValue locs c l =
        (if 0 < pymin (storedValues locs c.id) ∧ 0 < getValue l c.id
         then pymin (storedValues locs c.id) / getValue l c.id else 0)) ∧
    (∀ c : Criterion, c.type ≠ "cost" → signedWeight c = c.weight) := by
  constructor
  · intro locs c l h
    unfold nValue normFormula
    rw [if_neg h]
  · intro c h
    unfold signedWeight
    rw [if_neg h]

/-- C8, witness for the amended theorem at the invalid type string
`"distance"`: SAW's entry is the cost formula `5/5 = 1`, WP's exponent is
the unnegated weight `1`. -/
theorem criterion_type_dispatch_witness :
    nValue [locStored5] critOther locStored5 = 1 ∧ signedWeight critOther = critOther.weight := by
  constructor
  · rw [criterion_type_dispatch.1 [locStored5] critOther locStored5 (by decide)]
    simp [storedValues, pymin, getValue, locStored5, critOther]
  · exact criterion_type_dispatch.2 critOther (by decide)

/-! ### Claim C10 (confirmed) -/

theorem mergeSort_pair (le : α → α → Bool) (a b : α) :
    List.mergeSort [a, b] le = if le a b then [a, b] else [b, a] := by
  rw [List.mergeSort]
  simp [List.splitInTwo, List.merge]

theorem wpS_halfVal : wpS intPow [critBen] locHalfVal = some (1/2) := by
  have hhalf : (1/2:ℚ) ≠ 0 := by norm_num
  have hnlt : ¬ ((1/2:ℚ) < 0) := by norm_num
  simp [wpS, wpStep, getValue, mathPow, signedWeight, intPow, critBen, locHalfVal,
    hhalf, hnlt]

theorem wpS_missing : wpS intPow [critBen] locMissing = some 1 := by
  simp [wpS, wpStep, getValue, critBen, locMissing]

theorem wpSValues_pair : wpSValues intPow [locHalfVal, locMissing] [critBen]
    = some [("A", 1/2), ("B", 1)] := by
  simp only [wpSValues, mapOption, wpS_halfVal, wpS_missing, Option.map_some']
  rfl

theorem wpTotal_pair : wpTotal [("A", (1/2:ℚ)), ("B", 1)] = 3/2 := by
  simp [wpTotal]
  norm_num

theorem wpResultList_pair : wpResultList [("A", (1/2:ℚ)), ("B", 1)]
    = [⟨"A", 3333/10000, 1/2⟩, ⟨"B", 6667/10000, 1⟩] := by
  have harg1 : (1/2 : ℚ) / (3/2) = 1/3 := by norm_num
  have harg2 : (1 : ℚ) / (3/2) = 2/3 := by norm_num
  have hpos : (0:ℚ) < 3/2 := by norm_num
  simp only [wpResultList, wpTotal_pair, List.map_cons, List.map_nil, hpos, if_pos, if_true,
    harg1, harg2, round4_third, round4_two_thirds]

theorem calculate_wp_pair : calculate_wp intPow [locHalfVal, locMissing] [critBen]
    = some [⟨"B", 6667/10000, 1⟩, ⟨"A", 3333/10000, 1/2⟩] := by
  have hle : wpLE (⟨"A", 3333/10000, 1/2⟩ : WpResult) ⟨"B", 6667/10000, 1⟩ = false := by
    simp [wpLE]
    norm_num
  rw [calculate_wp, if_neg (by simp), wpSValues_pair, Option.map_some', wpResultList_pair,
    mergeSort_pair, hle]
  simp

/-- C10: a location whose value is `0` (stored zero or missing) for every
criterion receives the untouched accumulator `S = 1` under every model of
`math.pow`; and it is ranked with that value, so it can outrank locations
with a real product below `1`: concretely, A with product `1/2` is ranked
below the value-less B with `S = 1` (scores `2/3 → 0.6667` and
`1/3 → 0.3333`). -/
theorem wp_all_zero_location :
    (∀ (pw : ℚ → ℚ → ℚ) (crits : List Criterion) (l : Location),
      (∀ c ∈ crits, getValue l c.id = 0) → wpS pw crits l = some 1) ∧
    calculate_wp intPow [locHalfVal, locMissing] [critBen] =
      some [⟨"B", 6667/10000, 1⟩, ⟨"A", 3333/10000, 1/2⟩] := by
  constructor
  · intro pw crits l h
    exact foldl_wpStep_all_zero pw l crits 1 h
  · exact calculate_wp_pair

/-- C10, witness for the universally quantified part: the value-less
location B gets `S = 1`. -/
theorem wp_all_zero_location_witness : wpS intPow [critBen] locMissing = some 1 := by
  refine wp_all_zero_location.1 intPow [critBen] locMissing ?_
  intro c hc
  rcases List.mem_cons.mp hc with rfl | h
  · simp [getValue, locMissing]
  · cases h

/-! ### Claim C7 (confirmed) -/

/-- C7: the SAW output (whenever it does not raise) is, up to the final
reordering, the list of one record per input location carrying the
location's name, the score `round4 (Σ_c weight(c) · n(l,c))`, and the
per-criterion normalized values as details. -/
theorem saw_score_weighted_sum (locs : List Location) (crits : List Criterion)
    (res : List SawResult) (hl : locs ≠ []) (hc : crits ≠ [])
    (hnodl : (locs.map Location.id).Nodup) (hnodc : (crits.map Criterion.id).Nodup)
    (hres : calculate_saw locs crits = some res) :
    List.Perm res (locs.map (fun l =>
      { location := l.name
        score := round4 ((crits.map (fun c => c.weight * nValue locs c l)).sum)
        details := rowSpec locs crits l })) := by
  rw [calculate_saw, if_neg (by simp [hl, hc])] at hres
  rcases hrs : sawResults locs crits with _ | rs
  · rw [hrs] at hres
    cases hres
  · rw [hrs, Option.map_some'] at hres
    have hogoal : ∀ l ∈ locs,
        ((sawMatrix locs crits).lookup l.id).map (fun row =>
          ({ location := l.name
             score := round4 (sawScore crits row)
             details := row } : SawResult)) =
        some { location := l.name
               score := round4 ((crits.map (fun c => c.weight * nValue locs c l)).sum)
               details := rowSpec locs crits l } := by
      intro l hl'
      obtain ⟨b, hb⟩ := mapOption_isSome hrs l hl'
      rw [sawMatrix_lookup locs crits l hl' hnodl hnodc] at hb ⊢
      by_cases hall : ∀ c ∈ crits, storedValues locs c.id = []
      · rw [if_pos hall] at hb
        cases hb
      · rw [if_neg hall, Option.map_some']
        have hscore : sawScore crits (rowSpec locs crits l)
            = (crits.map (fun c => c.weight * nValue locs c l)).sum := by
          rw [sawScore_eq_sum]
          congr 1
          refine List.map_congr_left ?_
          intro c hcm
          rw [rowSpec_lookup locs crits l c hnodc hcm]
          by_cases hst : storedValues locs c.id = []
          · rw [if_pos hst, nValue_of_stored_empty locs c l hl' hst]
            rfl
          · rw [if_neg hst]
            rfl
        rw [hscore]
    have hmap := mapOption_eq_map hogoal
    have : sawResults locs crits = some (locs.map (fun l =>
        ({ location := l.name
           score := round4 ((crits.map (fun c => c.weight * nValue locs c l)).sum)
           details := rowSpec locs crits l } : SawResult))) := hmap
    rw [hrs] at this
    cases this
    exact (Option.some_inj.mp hres) ▸ List.mergeSort_perm _ sawLE

/-! Concrete evaluation of the spec's SAW scenario (A stores 10, B stores
5, one benefit criterion of weight 1 ⇒ A scores 1, B scores 0.5). -/

theorem sawMatrix_scenario : sawMatrix [locA10, locB5] [critBen]
    = [(1, [("c", 1)]), (2, [("c", 1/2)])] := by
  have h1 : (0:ℚ) < 10 := by norm_num
  have h2 : max (10:ℚ) 5 = 10 := by norm_num
  have h3 : (10:ℚ) / 10 = 1 := by norm_num
  have h4 : (5:ℚ) / 10 = 1/2 := by norm_num
  simp [sawMatrix, sawStep, storedValues, getValue, dictInsert, normFormula, pymax, pymin,
    locA10, locB5, critBen, h1, h2, h3, h4]

theorem sawResults_scenario : sawResults [locA10, locB5] [critBen]
    = some [⟨"A", 1, [("c", 1)]⟩, ⟨"B", 1/2, [("c", 1/2)]⟩] := by
  have hs1 : sawScore [critBen] [("c", (1:ℚ))] = 1 := by
    simp [sawScore, critBen]
  have hs2 : sawScore [critBen] [("c", (1/2:ℚ))] = 1/2 := by
    simp [sawScore, critBen]
  have hb2 : (((2:Nat)) == 1) = false := by decide
  simp only [sawResults]
  rw [sawMatrix_scenario]
  simp only [mapOption, List.lookup, locA10, locB5, beq_self_eq_true, hb2, Option.map_some',
    hs1, hs2, round4_one, round4_half]

theorem calculate_saw_scenario : calculate_saw [locA10, locB5] [critBen]
    = some [⟨"A", 1, [("c", 1)]⟩, ⟨"B", 1/2, [("c", 1/2)]⟩] := by
  have hle : sawLE (⟨"A", 1, [("c", 1)]⟩ : SawResult) ⟨"B", 1/2, [("c", 1/2)]⟩ = true := by
    simp [sawLE]
    norm_num
  rw [calculate_saw, if_neg (by simp), sawResults_scenario, Option.map_some',
    mergeSort_pair, hle]
  simp

/-- C7, witness at the spec scenario. -/
theorem saw_score_weighted_sum_witness :
    List.Perm [(⟨"A", 1, [("c", 1)]⟩ : SawResult), ⟨"B", 1/2, [("c", 1/2)]⟩]
      ([locA10, locB5].map (fun l =>
        { location := l.name
          score := round4 (([critBen].map
            (fun c => c.weight * nValue [locA10, locB5] c l)).sum)
          details := rowSpec [locA10, locB5] [critBen] l })) :=
  saw_score_weighted_sum [locA10, locB5] [critBen] _
    (by simp) (by simp) nodup_scenario_locs nodup_single_crit calculate_saw_scenario

/-! Concrete evaluation of the spec's WP scenario on the same dataset
(S(A)=10, S(B)=5, total 15 ⇒ scores 0.6667 and 0.3333). -/

theorem wpS_scenario_B : wpS intPow [critBen] locB5 = some 5 := by
  simp [wpS, wpStep, getValue, mathPow, signedWeight, intPow, critBen, locB5]

theorem wpSValues_scenario : wpSValues intPow [locA10, locB5] [critBen]
    = some [("A", 10), ("B", 5)] := by
  simp only [wpSValues, mapOption, wpS_scenario_A, wpS_scenario_B, Option.map_some']
  rfl

theorem wpTotal_scenario : wpTotal [("A", (10:ℚ)), ("B", 5)] = 15 := by
  simp [wpTotal]
  norm_num

theorem wpResultList_scenario : wpResultList [("A", (10:ℚ)), ("B", 5)]
    = [⟨"A", 6667/10000, 10⟩, ⟨"B", 3333/10000, 5⟩] := by
  have harg1 : (10 : ℚ) / 15 = 2/3 := by norm_num
  have harg2 : (5 : ℚ) / 15 = 1/3 := by norm_num
  have hpos : (0:ℚ) < 15 := by norm_num
  simp only [wpResultList, wpTotal_scenario, List.map_cons, List.map_nil, hpos, if_pos,
    if_true, harg1, harg2, round4_third, round4_two_thirds]

theorem calculate_wp_scenario : calculate_wp intPow [locA10, locB5] [critBen]
    = some [⟨"A", 6667/10000, 10⟩, ⟨"B", 3333/10000, 5⟩] := by
  have hle : wpLE (⟨"A", 6667/10000, 10⟩ : WpResult) ⟨"B", 3333/10000, 5⟩ = true := by
    simp [wpLE]
    norm_num
  rw [calculate_wp, if_neg (by simp), wpSValues_scenario, Option.map_some',
    wpResultList_scenario, mergeSort_pair, hle]
  simp

/-! ### Claim C6 (confirmed) -/

/-- C6: both rankings are ordered descending by the reported (already
rounded) score — the sort key is the rounded score, since the records are
built with `round4` applied before the sort — and the sort is stable:
filtering the output at any score value yields exactly the equal-score
records in the same relative order in which the input location sequence
produced them (`sawResults` / `wpResultList` enumerate locations in input
order). -/
theorem ranking_sorted_stable (locs : List Location) (crits : List Criterion)
    (pw : ℚ → ℚ → ℚ) (res1 rs : List SawResult) (res2 : List WpResult)
    (sv : List (String × ℚ)) (hl : locs ≠ []) (hc : crits ≠ [])
    (hrs : sawResults locs crits = some rs)
    (h1 : calculate_saw locs crits = some res1)
    (hsv : wpSValues pw locs crits = some sv)
    (h2 : calculate_wp pw locs crits = some res2) :
    (res1.Pairwise (fun a b => b.score ≤ a.score) ∧
      ∀ q : ℚ, res1.filter (fun r => decide (r.score = q))
        = rs.filter (fun r => decide (r.score = q))) ∧
    (res2.Pairwise (fun a b => b.score ≤ a.score) ∧
      ∀ q : ℚ, res2.filter (fun r => decide (r.score = q))
        = (wpResultList sv).filter (fun r => decide (r.score = q))) := by
  rw [calculate_saw, if_neg (by simp [hl, hc]), hrs, Option.map_some'] at h1
  rw [calculate_wp, if_neg (by simp [hl, hc]), hsv, Option.map_some'] at h2
  have hres1 : res1 = rs.mergeSort sawLE := (Option.some_inj.mp h1).symm
  have hres2 : res2 = (wpResultList sv).mergeSort wpLE := (Option.some_inj.mp h2).symm
  subst hres1
  subst hres2
  refine ⟨⟨?_, ?_⟩, ?_, ?_⟩
  · exact mergeSort_descBy_sorted SawResult.score rs
  · intro q
    exact mergeSort_filter_key SawResult.score rs q
  · exact mergeSort_descBy_sorted WpResult.score (wpResultList sv)
  · intro q
    exact mergeSort_filter_key WpResult.score (wpResultList sv) q

/-- C6, witness at the scenario dataset, on the WP side: the output is
sorted descending, and filtering at B's score picks B out of both the
output and the input-order record list. -/
theorem ranking_sorted_stable_witness :
    ([(⟨"A", 6667/10000, 10⟩ : WpResult), ⟨"B", 3333/10000, 5⟩].Pairwise
      (fun a b => b.score ≤ a.score)) ∧
    ([(⟨"A", 6667/10000, 10⟩ : WpResult), ⟨"B", 3333/10000, 5⟩].filter
        (fun r => decide (r.score = 3333/10000))
      = (wpResultList [("A", 10), ("B", 5)]).filter
        (fun r => decide (r.score = 3333/10000))) := by
  have h := ranking_sorted_stable [locA10, locB5] [critBen] intPow
    [⟨"A", 1, [("c", 1)]⟩, ⟨"B", 1/2, [("c", 1/2)]⟩]
    [⟨"A", 1, [("c", 1)]⟩, ⟨"B", 1/2, [("c", 1/2)]⟩]
    [⟨"A", 6667/10000, 10⟩, ⟨"B", 3333/10000, 5⟩]
    [("A", 10), ("B", 5)]
    (by simp) (by simp) sawResults_scenario calculate_saw_scenario
    wpSValues_scenario calculate_wp_scenario
  exact ⟨h.2.1, h.2.2 (3333/10000)⟩

/-! ### Claim C4 (corrected) -/

/-- C4, amended: each reported WP score is `round4 (S(l) / total)` when
`total > 0` and `0` otherwise; and when `total > 0` the reported scores
sum to `1` within `n · 5·10⁻⁵` where `n` is the number of locations (each
rounding contributes up to half of the last kept digit; the claimed fixed
tolerance `10⁻⁴` fails once more than two locations accumulate error, see
the counterexample). -/
theorem wp_score_normalization (pw : ℚ → ℚ → ℚ) (locs : List Location)
    (crits : List Criterion) (sv : List (String × ℚ)) (res : List WpResult)
    (hl : locs ≠ []) (hc : crits ≠ [])
    (hsv : wpSValues pw locs crits = some sv)
    (hres : calculate_wp pw locs crits = some res) :
    List.Perm res (sv.map (fun it =>
      ({ location := it.1
         score := if 0 < wpTotal sv then round4 (it.2 / wpTotal sv) else 0
         s := it.2 } : WpResult))) ∧
    (0 < wpTotal sv →
      |((res.map WpResult.score).sum) - 1| ≤ (locs.length : ℚ) * (1/20000)) := by
  rw [calculate_wp, if_neg (by simp [hl, hc]), hsv, Option.map_some'] at hres
  have hresEq : res = (wpResultList sv).mergeSort wpLE := (Option.some_inj.mp hres).symm
  have hperm : List.Perm res (wpResultList sv) := by
    rw [hresEq]
    exact List.mergeSort_perm _ _
  constructor
  · exact hperm
  · intro htot
    have hsum : (res.map WpResult.score).sum = ((wpResultList sv).map WpResult.score).sum :=
      (hperm.map _).sum_eq
    have h1 : (wpResultList sv).map WpResult.score
        = sv.map (fun it => round4 (it.2 / wpTotal sv)) := by
      unfold wpResultList
      rw [List.map_map]
      refine List.map_congr_left ?_
      intro it _
      simp [Function.comp, if_pos htot]
    have h2 : sv.map (fun it => round4 (it.2 / wpTotal sv))
        = (sv.map (fun it => it.2 / wpTotal sv)).map round4 := by
      rw [List.map_map]
      rfl
    have h3 : (sv.map (fun it => it.2 / wpTotal sv)).sum = 1 := by
      have hm : sv.map (fun it => it.2 / wpTotal sv)
          = (sv.map Prod.snd).map (· / wpTotal sv) := by
        rw [List.map_map]
        rfl
      have htos : (sv.map Prod.snd).sum = wpTotal sv := by
        unfold wpTotal
        rw [foldl_add_eq_sum]
        ring
      rw [hm, sum_map_div, htos]
      exact div_self (ne_of_gt htot)
    have hb := sum_map_round4_close (sv.map (fun it => it.2 / wpTotal sv))
    rw [h3] at hb
    have hlen : (sv.map (fun it => it.2 / wpTotal sv)).length = locs.length := by
      rw [List.length_map]
      exact mapOption_length hsv
    rw [hlen] at hb
    rw [hsum, h1, h2]
    exact hb

/-- C4, witness for the amended theorem at the scenario: the two reported
scores `0.6667 + 0.3333 = 1` land within `2 · 5·10⁻⁵` of `1`. -/
theorem wp_score_normalization_witness :
    List.Perm [(⟨"A", 6667/10000, 10⟩ : WpResult), ⟨"B", 3333/10000, 5⟩]
      ([("A", (10:ℚ)), ("B", 5)].map (fun it =>
        ({ location := it.1
           score := if 0 < wpTotal [("A", (10:ℚ)), ("B", 5)]
             then round4 (it.2 / wpTotal [("A", (10:ℚ)), ("B", 5)]) else 0
           s := it.2 } : WpResult))) ∧
    |(([(⟨"A", 6667/10000, 10⟩ : WpResult), ⟨"B", 3333/10000, 5⟩].map
        WpResult.score).sum) - 1| ≤ (([locA10, locB5].length : ℕ) : ℚ) * (1/20000) := by
  have h := wp_score_normalization intPow [locA10, locB5] [critBen]
    [("A", 10), ("B", 5)] [⟨"A", 6667/10000, 10⟩, ⟨"B", 3333/10000, 5⟩]
    (by simp) (by simp) wpSValues_scenario calculate_wp_scenario
  refine ⟨h.1, h.2 ?_⟩
  rw [wpTotal_scenario]
  norm_num

theorem wpS_unit (i : Nat) (n : String) :
    wpS intPow [critBen] ⟨i, n, [("c", 1)]⟩ = some 1 := by
  have hn : ¬ ((1:ℚ) < 0) := by norm_num
  simp [wpS, wpStep, getValue, mathPow, signedWeight, intPow, critBen, hn]

theorem wpSValues_six : wpSValues intPow sixLocs [critBen]
    = some [("P1", 1), ("P2", 1), ("P3", 1), ("P4", 1), ("P5", 1), ("P6", 1)] := by
  simp only [sixLocs, wpSValues, mapOption, wpS_unit, Option.map_some']

theorem wpTotal_six :
    wpTotal [("P1", (1:ℚ)), ("P2", 1), ("P3", 1), ("P4", 1), ("P5", 1), ("P6", 1)] = 6 := by
  simp [wpTotal]
  norm_num

theorem wpResultList_six :
    wpResultList [("P1", (1:ℚ)), ("P2", 1), ("P3", 1), ("P4", 1), ("P5", 1), ("P6", 1)]
      = [⟨"P1", 1667/10000, 1⟩, ⟨"P2", 1667/10000, 1⟩, ⟨"P3", 1667/10000, 1⟩,
         ⟨"P4", 1667/10000, 1⟩, ⟨"P5", 1667/10000, 1⟩, ⟨"P6", 1667/10000, 1⟩] := by
  have hpos : (0:ℚ) < 6 := by norm_num
  simp only [wpResultList, wpTotal_six, List.map_cons, List.map_nil, hpos, if_pos, if_true,
    round4_sixth]

theorem calculate_wp_six : calculate_wp intPow sixLocs [critBen]
    = some [⟨"P1", 1667/10000, 1⟩, ⟨"P2", 1667/10000, 1⟩, ⟨"P3", 1667/10000, 1⟩,
            ⟨"P4", 1667/10000, 1⟩, ⟨"P5", 1667/10000, 1⟩, ⟨"P6", 1667/10000, 1⟩] := by
  rw [calculate_wp, if_neg (by simp [sixLocs]), wpSValues_six, Option.map_some',
    wpResultList_six]
  rw [List.mergeSort_of_sorted]
  refine pairwise_descBy_of_all_eq WpResult.score (1667/10000) _ ?_
  intro a ha
  simp only [List.mem_cons, List.not_mem_nil, or_false] at ha
  rcases ha with rfl | rfl | rfl | rfl | rfl | rfl <;> rfl

/-- C4, counterexample for the fixed tolerance. With six locations of
equal product `S = 1`, every exact score is `1/6` and every reported
score is `round4 (1/6) = 0.1667`; the reported scores sum to `1.0002`,
which misses `1.0` by `2·10⁻⁴ > 10⁻⁴`. -/
theorem wp_rounded_sum_tolerance_refuted :
    calculate_wp intPow sixLocs [critBen]
      = some [⟨"P1", 1667/10000, 1⟩, ⟨"P2", 1667/10000, 1⟩, ⟨"P3", 1667/10000, 1⟩,
              ⟨"P4", 1667/10000, 1⟩, ⟨"P5", 1667/10000, 1⟩, ⟨"P6", 1667/10000, 1⟩] ∧
    (([(⟨"P1", 1667/10000, 1⟩ : WpResult), ⟨"P2", 1667/10000, 1⟩, ⟨"P3", 1667/10000, 1⟩,
       ⟨"P4", 1667/10000, 1⟩, ⟨"P5", 1667/10000, 1⟩, ⟨"P6", 1667/10000, 1⟩].map
        WpResult.score).sum = 10002/10000) ∧
    ¬ (|(([(⟨"P1", 1667/10000, 1⟩ : WpResult), ⟨"P2", 1667/10000, 1⟩, ⟨"P3", 1667/10000, 1⟩,
          ⟨"P4", 1667/10000, 1⟩, ⟨"P5", 1667/10000, 1⟩, ⟨"P6", 1667/10000, 1⟩].map
           WpResult.score).sum) - 1| ≤ 1/10000) := by
  have hsum : ([(⟨"P1", 1667/10000, 1⟩ : WpResult), ⟨"P2", 1667/10000, 1⟩,
      ⟨"P3", 1667/10000, 1⟩, ⟨"P4", 1667/10000, 1⟩, ⟨"P5", 1667/10000, 1⟩,
      ⟨"P6", 1667/10000, 1⟩].map WpResult.score).sum = 10002/10000 := by
    simp
    norm_num
  refine ⟨calculate_wp_six, hsum, ?_⟩
  rw [hsum, show (10002:ℚ)/10000 - 1 = 2/10000 by norm_num,
    abs_of_pos (by norm_num : (0:ℚ) < 2/10000)]
  norm_num

end Tofico
